import Mathlib

/-!
Verification of the ListMan word-collection pipeline (`src/listman.py`).

The Python program is shallowly embedded below.  File contents are modelled
as lists of characters (a text file is exactly its character sequence); the
process-visible filesystem facts the program consults (`os.path.isfile`,
`os.path.isdir`, `glob.glob(folder/*.txt)`, the log file, the resume file,
per-path read behaviour) are collected in an `Env` record.  Python `set`s of
strings become `Finset String`; Python string comparison and `sorted` agree
with Lean's `String` linear order (both are lexicographic by code point).
-/

namespace ListMan

/-- ASCII whitespace recognised by Python's `str.strip()` (the program's
inputs are word lists; the further Unicode space code points that Python
also strips are outside the model). -/
def isSpaceChar (c : Char) : Bool :=
  c == ' ' || c == '\t' || c == '\n' || c == '\r' || c == '\x0b' || c == '\x0c'

/-- Characters of `s.strip()`: whitespace removed from both ends. -/
def stripChars (l : List Char) : List Char :=
  (((l.dropWhile isSpaceChar).reverse.dropWhile isSpaceChar)).reverse

/-- Python `line.strip()`. -/
def pystrip (s : String) : String := ⟨stripChars s.data⟩

/-- Python `text.split("|")` (single-character separator, empty parts kept). -/
def splitPipeAux (acc : List Char) : List Char → List (List Char)
  | [] => [acc.reverse]
  | c :: cs =>
    if c = '|' then acc.reverse :: splitPipeAux [] cs
    else splitPipeAux (c :: acc) cs

def splitPipe (l : List Char) : List (List Char) := splitPipeAux [] l

/-- Iterating a Python text file yields its lines, each including the
terminating newline; a final segment without `'\n'` is yielded as-is and
nothing is yielded after a terminating final newline. -/
def pyLinesAux (acc : List Char) : List Char → List (List Char)
  | [] => match acc with
    | [] => []
    | _ => [acc.reverse]
  | c :: cs =>
    if c = '\n' then (acc.reverse ++ ['\n']) :: pyLinesAux [] cs
    else pyLinesAux (c :: acc) cs

/-- The lines (as strings, newline included) of a text file's characters. -/
def pyLines (content : List Char) : List String :=
  (pyLinesAux [] content).map fun l => (⟨l⟩ : String)

/-- Python truthiness of an optional string (`None` and `""` are falsy). -/
def truthy : Option String → Bool
  | none => false
  | some s => !(s == "")

/-- Python `{action:<6}`: left-justify in a field of width 6. -/
def padTo6 (s : String) : String := s ++ ⟨List.replicate (6 - s.length) ' '⟩

/-- The single line appended by `log_action` (listman.py:101-103):
`f"{datetime.now().isoformat()} | {action:<6} | {path} | {word_count} words"`,
with the timestamp abstracted as a string argument. -/
def log_line (ts action path : String) (wordCount : Nat) : String :=
  ts ++ " | " ++ padTo6 action ++ " | " ++ path ++ " | " ++ toString wordCount ++ " words"

/-- Parsing of one log line inside `load_logged_files` (listman.py:110-114):
`parts = line.strip().split("|")`; if `len(parts) >= 3` the recovered path is
`parts[2].strip()`. -/
def parseLogLine (line : String) : Option String :=
  match (splitPipe (stripChars line.data)).get? 2 with
  | some p => some (⟨stripChars p⟩ : String)
  | none => none

/-- `load_logged_files` (listman.py:105-115): empty set when no log path is
configured or the log file does not exist, else the set of parsed path
fields of the log's lines. -/
def load_logged_files (logPath : Option String) (logFile : Option (List String)) :
    Finset String :=
  if truthy logPath then
    match logFile with
    | some ls => (ls.filterMap parseLogLine).toFinset
    | none => ∅
  else ∅

/-- What the two `open`-and-read passes of `collect_words_from_file` observe
for one source: either opening/counting fails outright, or the file yields
`lines` (terminator-stripped physical lines, so no line contains `'\n'`) and,
when `failAfter = some k` with `k ≤ lines.length`, the read of line index `k`
in the second pass raises an exception (with `k = lines.length` the failing
read is the final end-of-file read). -/
inductive SourceData where
  | unopenable : SourceData
  | readable (lines : List String) (failAfter : Option Nat) : SourceData
deriving DecidableEq

/-- Observable outcome of one `collect_words_from_file` call: the returned
word set, whether a ledger line was appended, the word count written in it
(0 when none was), and whether the `except` branch reported an error. -/
structure WorkerResult where
  words : Finset String
  logged : Bool
  loggedCount : Nat
  errorReported : Bool
deriving DecidableEq

/-- The distinct trimmed non-empty lines: `word = line.strip(); if word:
words.add(word)` over a list of lines (listman.py:139-141). -/
def wordsOfLines (lines : List String) : Finset String :=
  ((lines.map pystrip).filter (fun w => decide (w ≠ ""))).toFinset

/-- `collect_words_from_file` (listman.py:129-146).  `cancelAt = some c` means
the first check of the global `should_exit` flag that observes `true` is check
number `c`, where check `i < lines.length` is the `if should_exit: break` after
reading line `i` and check `lines.length` is the `not should_exit` guard of the
logging step; `none` means the flag stays `false` throughout the call.
`logOpts` is the truthiness of `log_path and action`. -/
def collect_words_from_file (src : SourceData) (logOpts : Bool) (cancelAt : Option Nat) :
    WorkerResult :=
  match src with
  | .unopenable => ⟨∅, false, 0, true⟩
  | .readable lines failAfter =>
    let n := lines.length
    let c := cancelAt.getD (n + 1)
    let fx := match failAfter with
      | some k => if k ≤ n then k else n + 1
      | none => n + 1
    if c < fx ∧ c < n then
      ⟨wordsOfLines (lines.take c), false, 0, false⟩
    else if fx ≤ n then
      ⟨wordsOfLines (lines.take fx), false, 0, true⟩
    else if logOpts ∧ n < c then
      ⟨wordsOfLines lines, true, (wordsOfLines lines).card, false⟩
    else
      ⟨wordsOfLines lines, false, 0, false⟩

/-- The filesystem facts one run of the program consults. -/
structure Env where
  isFile : String → Bool
  isDir : String → Bool
  globTxt : String → List String
  content : String → SourceData
  logFile : Option (List String)
  resumeState : Option (List String)

/-- Enumeration of sources (listman.py:149-163): existing explicit files in
order, then for each existing folder the `*.txt` glob expansion. -/
def enumerate_files (env : Env) (files folders : List String) : List String :=
  (files.filter fun f => env.isFile f) ++
    ((folders.filter fun d => env.isDir d).flatMap env.globTxt)

/-- The sequence of sources handed to the worker pool (listman.py:149-177):
`none` models the early `return set()` on an empty enumeration (which happens
before the skip-logged and resume steps); otherwise the enumerated list after
the skip-logged filter (only when `skip_logged and log_path`) and the resume
replacement (only when `--resume` and the loaded pending list is truthy). -/
def dispatched_files (env : Env) (files folders : List String)
    (logPath : Option String) (skipLogged resume : Bool) : Option (List String) :=
  let all0 := enumerate_files env files folders
  if all0 = [] then none
  else
    let all1 :=
      if skipLogged && truthy logPath then
        all0.filter fun f => decide (f ∉ load_logged_files logPath env.logFile)
      else all0
    let all2 :=
      match resume, env.resumeState with
      | true, some pending => if pending = [] then all1 else pending
      | _, _ => all1
    some all2

/-- The word set returned by an uninterrupted `collect_words_from_inputs`
(listman.py:148-201): the union of the worker results over the dispatched
sequence (`words |= future.result()`; set union makes completion order
irrelevant, so program order is folded). -/
def collect_words_from_inputs (env : Env) (files folders : List String)
    (logPath : Option String) (logOpts skipLogged resume : Bool) : Finset String :=
  match dispatched_files env files folders logPath skipLogged resume with
  | none => ∅
  | some l =>
    l.foldl (fun acc f => acc ∪ (collect_words_from_file (env.content f) logOpts .none).words) ∅

/-- The pending list computed when interruption is observed
(listman.py:193-194): `[f for f in remaining if f not in load_logged_files(log_path)]`,
where `remaining` is the run's full processing sequence. -/
def interrupt_pending (remaining : List String) (logPath : Option String)
    (logFile : Option (List String)) : List String :=
  remaining.filter fun f => decide (f ∉ load_logged_files logPath logFile)

/-- `save_resume_state` (listman.py:117-120): the resume file now holds
exactly the given pending list. -/
def save_resume_state (pending : List String) : Option (List String) :=
  some pending

/-- The checkpoint stored on interruption (listman.py:193-196). -/
def checkpoint_after_interrupt (remaining : List String) (logPath : Option String)
    (logFile : Option (List String)) : Option (List String) :=
  save_resume_state (interrupt_pending remaining logPath logFile)

/-- Python `sorted(words)` over a set of strings: the elements in ascending
lexicographic (code-point) order. -/
def sortedWords (words : Finset String) : List String :=
  words.sort (· ≤ ·)

def MASTER_FILE : String := "master_wordlist.txt"

/-- Compression choice for `save_master`; `plain` is `compress=None`. -/
inductive CompressMode where
  | plain | gzip | bz2
deriving DecidableEq

/-- Output file chosen by `save_master` (listman.py:204-218). -/
def save_master_file : CompressMode → String
  | .plain => MASTER_FILE
  | .gzip => MASTER_FILE ++ ".gz"
  | .bz2 => MASTER_FILE ++ ".bz2"

/-- The text written by `save_master`'s write loop, identical in all three
modes (compression is a transparent encoding of this text):
`for word in sorted(words): outfile.write(word + "\n")`. -/
def masterContent (words : Finset String) : List Char :=
  (sortedWords words).flatMap fun w => w.data ++ ['\n']

/-- `save_master` (listman.py:204-223): the chosen output file and the text
written to it. -/
def save_master (words : Finset String) (mode : CompressMode) : String × List Char :=
  (save_master_file mode, masterContent words)

/-- The three mutually independent on-disk representations of the master
collection (`master_wordlist.txt`, `.gz`, `.bz2`); `none` = file absent. -/
structure MasterFS where
  plain : Option (List Char)
  gz : Option (List Char)
  bz2 : Option (List Char)
deriving DecidableEq

def MasterFS.empty : MasterFS := ⟨none, none, none⟩

/-- State of the master store after `save_master` runs: only the file for the
chosen mode is (over)written; the other representations are untouched. -/
def saveToFS (fs : MasterFS) (words : Finset String) (mode : CompressMode) : MasterFS :=
  match mode with
  | .plain => { fs with plain := some (masterContent words) }
  | .gzip => { fs with gz := some (masterContent words) }
  | .bz2 => { fs with bz2 := some (masterContent words) }

/-- The load performed by `add_to_master` (listman.py:231-244): the first
existing representation in the order plain, gzip, bz2 is read as
`set(line.strip() for line in infile if line.strip())`; `none` when no
representation exists (the "No master wordlist found" abort). -/
def load_master (fs : MasterFS) : Option (Finset String) :=
  match fs.plain with
  | some c => some (wordsOfLines (pyLines c))
  | none =>
    match fs.gz with
    | some c => some (wordsOfLines (pyLines c))
    | none =>
      match fs.bz2 with
      | some c => some (wordsOfLines (pyLines c))
      | none => none

/-- Concrete environment for the C4 counterexample: nothing on disk, but a
non-empty checkpoint is present. -/
def envC4 : Env :=
  { isFile := fun _ => false, isDir := fun _ => false, globTxt := fun _ => [],
    content := fun _ => .unopenable, logFile := none,
    resumeState := some ["b.txt", "c.txt"] }

/-- Concrete environment for the C4 witness: one real file and a non-empty
checkpoint. -/
def envC4W : Env :=
  { isFile := fun f => f == "x.txt", isDir := fun _ => false, globTxt := fun _ => [],
    content := fun _ => .unopenable, logFile := none, resumeState := some ["b.txt"] }

/-- Concrete environment for C6: `a.txt` exists on disk, is recorded in the
log store, and also appears in a resume checkpoint. -/
def envC6 : Env :=
  { isFile := fun f => f == "a.txt", isDir := fun _ => false, globTxt := fun _ => [],
    content := fun _ => .readable ["x"] .none,
    logFile := some [log_line "2024-01-01T00:00:00" "CREATE" "a.txt" 1],
    resumeState := some ["a.txt"] }

/-- Concrete environment for the C1 witness, the spec's concrete scenario:
`a.txt` holds the lines `foo`, ` bar `, `` and `foo`; `b.txt` holds `baz`
and `foo`. -/
def envC1 : Env :=
  { isFile := fun f => f == "a.txt" || f == "b.txt", isDir := fun _ => false,
    globTxt := fun _ => [],
    content := fun f =>
      if f == "a.txt" then .readable ["foo", " bar ", "", "foo"] .none
      else if f == "b.txt" then .readable ["baz", "foo"] .none
      else .unopenable,
    logFile := none, resumeState := none }

/-- The per-source line lists of `envC1`. -/
def srcLinesC1 : String → List String := fun f =>
  if f == "a.txt" then ["foo", " bar ", "", "foo"]
  else if f == "b.txt" then ["baz", "foo"] else []

/-- Concrete environment for the C9 counterexample: `a.txt` exists. -/
def envC9 : Env :=
  { isFile := fun f => f == "a.txt", isDir := fun _ => false, globTxt := fun _ => [],
    content := fun _ => .unopenable, logFile := none, resumeState := none }

theorem data_append (s t : String) : (s ++ t).data = s.data ++ t.data := by
  cases s; cases t; rfl

theorem stripChars_eq_rdrop (l : List Char) :
    stripChars l = List.rdropWhile isSpaceChar (List.dropWhile isSpaceChar l) := rfl

/-- If stripping changes nothing, neither end held whitespace: both one-sided
drops are already trivial. -/
theorem strip_self_parts (l : List Char) (h : stripChars l = l) :
    List.dropWhile isSpaceChar l = l ∧ List.rdropWhile isSpaceChar l = l := by
  have h1 : (List.dropWhile isSpaceChar l).length ≤ l.length :=
    (List.dropWhile_suffix _).length_le
  have h2 : (stripChars l).length ≤ (List.dropWhile isSpaceChar l).length := by
    rw [stripChars_eq_rdrop]
    exact (List.rdropWhile_prefix _ _).length_le
  rw [h] at h2
  have hd : List.dropWhile isSpaceChar l = l :=
    (List.dropWhile_suffix _).eq_of_length (le_antisymm h1 h2)
  rw [stripChars_eq_rdrop, hd] at h
  exact ⟨hd, h⟩

theorem head_not_space_of_dropWhile (c : Char) (t : List Char)
    (h : List.dropWhile isSpaceChar (c :: t) = c :: t) : isSpaceChar c = false := by
  cases hsp : isSpaceChar c
  · rfl
  · rw [List.dropWhile_cons, if_pos hsp] at h
    have := (List.dropWhile_suffix (l := t) isSpaceChar).length_le
    rw [h] at this
    simp at this

/-- A list whose first and last characters are not whitespace strips to
itself. -/
theorem stripChars_eq_self_of_ends (l : List Char)
    (h1 : ∀ c, l.head? = some c → isSpaceChar c = false)
    (h2 : ∀ c, l.getLast? = some c → isSpaceChar c = false) :
    stripChars l = l := by
  rw [stripChars_eq_rdrop]
  have hd : List.dropWhile isSpaceChar l = l := by
    cases l with
    | nil => rfl
    | cons c t =>
      rw [List.dropWhile_cons, if_neg]
      simp [h1 c rfl]
  rw [hd, List.rdropWhile_eq_self_iff]
  intro hl
  have := h2 (l.getLast hl) (List.getLast?_eq_getLast l hl)
  simp [this]

/-- Appending the written newline undoes nothing that a later `strip()` will
not remove again: stripping `w ++ "\n"` recovers an already-stripped `w`. -/
theorem stripChars_append_newline (w : List Char) (h : stripChars w = w) :
    stripChars (w ++ ['\n']) = w := by
  obtain ⟨hd, hr⟩ := strip_self_parts w h
  cases w with
  | nil => rfl
  | cons c t =>
    have hc : isSpaceChar c = false := head_not_space_of_dropWhile c t hd
    rw [stripChars_eq_rdrop, List.cons_append, List.dropWhile_cons, if_neg (by simp [hc]),
      ← List.cons_append, List.rdropWhile_concat_pos _ _ _ (by decide)]
    exact hr

/-- Stripping the `" x "`-shaped field produced by the log formatter recovers
an already-stripped `x`. -/
theorem stripChars_sandwich (x : List Char) (h : stripChars x = x) :
    stripChars (' ' :: (x ++ [' '])) = x := by
  obtain ⟨hd, hr⟩ := strip_self_parts x h
  rw [stripChars_eq_rdrop, List.dropWhile_cons, if_pos (by decide)]
  cases x with
  | nil =>
    simp [List.dropWhile, List.rdropWhile]
  | cons c t =>
    have hc : isSpaceChar c = false := head_not_space_of_dropWhile c t hd
    rw [List.cons_append, List.dropWhile_cons, if_neg (by simp [hc]), ← List.cons_append,
      List.rdropWhile_concat_pos _ _ _ (by decide)]
    exact hr

theorem splitPipeAux_of_not_mem (x : List Char) (acc : List Char) (h : '|' ∉ x) :
    splitPipeAux acc x = [acc.reverse ++ x] := by
  induction x generalizing acc with
  | nil => simp [splitPipeAux]
  | cons c cs ih =>
    have hc : ¬(c = '|') := fun hc => h (hc ▸ List.mem_cons_self c cs)
    rw [splitPipeAux, if_neg hc, ih _ fun hm => h (List.mem_cons_of_mem _ hm)]
    simp

theorem splitPipeAux_append (x rest acc : List Char) (h : '|' ∉ x) :
    splitPipeAux acc (x ++ '|' :: rest) = (acc.reverse ++ x) :: splitPipeAux [] rest := by
  induction x generalizing acc with
  | nil => simp [splitPipeAux]
  | cons c cs ih =>
    have hc : ¬(c = '|') := fun hc => h (hc ▸ List.mem_cons_self c cs)
    rw [List.cons_append, splitPipeAux, if_neg hc, ih _ fun hm => h (List.mem_cons_of_mem _ hm)]
    simp

/-- The third `"|"`-separated field of a line with at least three pipes. -/
theorem splitPipe_three (x1 x2 x3 rest : List Char)
    (h1 : '|' ∉ x1) (h2 : '|' ∉ x2) (h3 : '|' ∉ x3) :
    (splitPipe (x1 ++ '|' :: (x2 ++ '|' :: (x3 ++ '|' :: rest)))).get? 2 = some x3 := by
  unfold splitPipe
  rw [splitPipeAux_append _ _ _ h1, splitPipeAux_append _ _ _ h2, splitPipeAux_append _ _ _ h3]
  rfl

theorem pyLinesAux_append (w : List Char) (rest acc : List Char) (h : '\n' ∉ w) :
    pyLinesAux acc (w ++ '\n' :: rest) =
      ((acc.reverse ++ w) ++ ['\n']) :: pyLinesAux [] rest := by
  induction w generalizing acc with
  | nil => simp [pyLinesAux]
  | cons c cs ih =>
    have hc : ¬(c = '\n') := fun hc => h (hc ▸ List.mem_cons_self c cs)
    rw [List.cons_append, pyLinesAux, if_neg hc, ih _ fun hm => h (List.mem_cons_of_mem _ hm)]
    simp

/-- Reading back a file written as newline-terminated records yields exactly
those records (each with its newline), provided no record contains a newline. -/
theorem pyLinesAux_flat (ws : List String) (h : ∀ w ∈ ws, '\n' ∉ w.data) :
    pyLinesAux [] (ws.flatMap fun w => w.data ++ ['\n']) =
      ws.map fun w => w.data ++ ['\n'] := by
  induction ws with
  | nil => rfl
  | cons w ws ih =>
    rw [List.flatMap_cons]
    have hshape : (w.data ++ ['\n']) ++ (ws.flatMap fun w => w.data ++ ['\n']) =
        w.data ++ '\n' :: (ws.flatMap fun w => w.data ++ ['\n']) := by simp
    rw [hshape, pyLinesAux_append _ _ _ (h w (List.mem_cons_self w ws))]
    rw [ih fun x hx => h x (List.mem_cons_of_mem _ hx)]
    simp

/-- The lines of the text written by `save_master` are the sorted words, each
followed by its newline. -/
theorem pyLines_masterContent (words : Finset String) (h : ∀ w ∈ words, '\n' ∉ w.data) :
    pyLines (masterContent words) = (sortedWords words).map fun w => w ++ "\n" := by
  unfold pyLines masterContent
  rw [pyLinesAux_flat (sortedWords words)
    (fun w hw => h w (by rwa [sortedWords, Finset.mem_sort] at hw))]
  rw [List.map_map]
  refine List.map_congr_left fun a _ => ?_
  apply String.ext
  rw [data_append]
  rfl

/-- Loading the newline-terminated records of already-stripped non-empty
words recovers exactly the words. -/
theorem wordsOfLines_map_newline (ws : List String)
    (h : ∀ w ∈ ws, w ≠ "" ∧ stripChars w.data = w.data) :
    wordsOfLines (ws.map fun w => w ++ "\n") = ws.toFinset := by
  unfold wordsOfLines
  rw [List.map_map]
  have hmap : ws.map (pystrip ∘ fun w => w ++ "\n") = ws := by
    have : ws.map (pystrip ∘ fun w => w ++ "\n") = ws.map id := by
      refine List.map_congr_left fun a ha => ?_
      show pystrip (a ++ "\n") = a
      apply String.ext
      show stripChars (a ++ "\n").data = a.data
      rw [data_append]
      exact stripChars_append_newline a.data (h a ha).2
    rw [this, List.map_id]
  rw [hmap, List.filter_eq_self.mpr fun a ha => by simp [(h a ha).1]]

/-- Membership in a left fold of unions: the folded set collects the initial
set and every per-element set. -/
theorem mem_foldl_union (g : String → Finset String) (l : List String)
    (init : Finset String) (w : String) :
    w ∈ l.foldl (fun acc f => acc ∪ g f) init ↔ w ∈ init ∨ ∃ f ∈ l, w ∈ g f := by
  induction l generalizing init with
  | nil => simp
  | cons a t ih =>
    simp only [List.foldl_cons, ih, Finset.mem_union, List.mem_cons]
    constructor
    · rintro (⟨h | h⟩ | ⟨f, hf, hw⟩)
      · exact Or.inl h
      · exact Or.inr ⟨a, Or.inl rfl, h⟩
      · exact Or.inr ⟨f, Or.inr hf, hw⟩
    · rintro (h | ⟨f, rfl | hf, hw⟩)
      · exact Or.inl (Or.inl h)
      · exact Or.inl (Or.inr hw)
      · exact Or.inr ⟨f, hf, hw⟩

/-- A line written by `log_action` parses back (in `load_logged_files`) to
exactly the path it recorded, provided the timestamp is non-empty and
pre-stripped, neither timestamp, action nor path contains the `|` delimiter,
and the path carries no surrounding whitespace. -/
theorem parse_log_line (ts act path : String) (cnt : Nat)
    (hts : stripChars ts.data = ts.data) (hts0 : ts ≠ "")
    (h1 : '|' ∉ ts.data) (h2 : '|' ∉ act.data) (h3 : '|' ∉ path.data)
    (hp : pystrip path = path) :
    parseLogLine (log_line ts act path cnt) = some path := by
  have hp' : stripChars path.data = path.data := congrArg String.data hp
  have hpad : (padTo6 act).data = act.data ++ List.replicate (6 - act.length) ' ' := by
    show (act ++ _ : String).data = _
    rw [data_append]
  have lsep : (" | " : String).data = [' ', '|', ' '] := rfl
  have lw : (" words" : String).data = [' ', 'w', 'o', 'r', 'd', 's'] := rfl
  have hdata : (log_line ts act path cnt).data =
      (ts.data ++ [' ']) ++ '|' :: ((' ' :: ((padTo6 act).data ++ [' '])) ++ '|' ::
        ((' ' :: (path.data ++ [' '])) ++ '|' ::
          (' ' :: ((toString cnt).data ++ [' ', 'w', 'o', 'r', 'd', 's'])))) := by
    simp [log_line, data_append, lsep, lw]
  have hdata2 : (log_line ts act path cnt).data =
      (ts ++ " | " ++ padTo6 act ++ " | " ++ path ++ " | " ++ toString cnt).data ++
        [' ', 'w', 'o', 'r', 'd', 's'] := by
    rw [show log_line ts act path cnt =
      (ts ++ " | " ++ padTo6 act ++ " | " ++ path ++ " | " ++ toString cnt) ++ " words"
      from rfl, data_append, lw]
  obtain ⟨c, t, hts'⟩ : ∃ c t, ts.data = c :: t := by
    cases hd : ts.data with
    | nil => exact absurd (String.ext (hd.trans rfl)) hts0
    | cons c t => exact ⟨c, t, rfl⟩
  have hc : isSpaceChar c = false := by
    have hdw := (strip_self_parts ts.data hts).1
    rw [hts'] at hdw
    exact head_not_space_of_dropWhile c t hdw
  have hstrip : stripChars (log_line ts act path cnt).data =
      (log_line ts act path cnt).data := by
    apply stripChars_eq_self_of_ends
    · intro ch hch
      rw [hdata, hts'] at hch
      simp at hch
      rwa [← hch]
    · intro ch hch
      rw [hdata2, List.getLast?_append_of_ne_nil _ (by decide)] at hch
      simp at hch
      rw [← hch]
      rfl
  have hx1 : '|' ∉ ts.data ++ [' '] := by simp [h1]
  have hx2 : '|' ∉ ' ' :: ((padTo6 act).data ++ [' ']) := by
    simp [hpad, h2, List.mem_replicate]
  have hx3 : '|' ∉ ' ' :: (path.data ++ [' ']) := by simp [h3]
  unfold parseLogLine
  rw [hstrip, hdata, splitPipe_three _ _ _ _ hx1 hx2 hx3]
  show some (⟨stripChars (' ' :: (path.data ++ [' ']))⟩ : String) = some path
  rw [stripChars_sandwich path.data hp']

/-- C2: with sources `[A, B, C]` and a log store holding exactly the
`log_action` entry for `A`, the checkpoint saved on interruption is exactly
`[B, C]` — every path of the processing sequence not in `loggedPaths()` at
that moment, and not `A`. -/
theorem claim_C2 (ts act A B C lp : String) (cnt : Nat)
    (hts : stripChars ts.data = ts.data) (hts0 : ts ≠ "")
    (h1 : '|' ∉ ts.data) (h2 : '|' ∉ act.data) (h3 : '|' ∉ A.data)
    (hA : pystrip A = A) (hlp : lp ≠ "") (hB : B ≠ A) (hC : C ≠ A) :
    checkpoint_after_interrupt [A, B, C] (some lp) (some [log_line ts act A cnt]) =
      some [B, C] := by
  have hparse := parse_log_line ts act A cnt hts hts0 h1 h2 h3 hA
  have hlog : load_logged_files (some lp) (some [log_line ts act A cnt]) = {A} := by
    simp [load_logged_files, truthy, hlp, hparse]
  unfold checkpoint_after_interrupt save_resume_state interrupt_pending
  rw [hlog]
  simp [List.filter_cons, hB, hC]

/-- Witness for C2 at concrete timestamp, action, paths and count. -/
theorem claim_C2_witness :
    (stripChars ("2024-01-01T00:00:00" : String).data = ("2024-01-01T00:00:00" : String).data ∧
      ("2024-01-01T00:00:00" : String) ≠ "" ∧
      '|' ∉ ("2024-01-01T00:00:00" : String).data ∧ '|' ∉ ("CREATE" : String).data ∧
      '|' ∉ ("a.txt" : String).data ∧ pystrip "a.txt" = "a.txt" ∧
      ("listman.log" : String) ≠ "" ∧ ("b.txt" : String) ≠ "a.txt" ∧
      ("c.txt" : String) ≠ "a.txt") ∧
    checkpoint_after_interrupt ["a.txt", "b.txt", "c.txt"] (some "listman.log")
        (some [log_line "2024-01-01T00:00:00" "CREATE" "a.txt" 3]) =
      some ["b.txt", "c.txt"] :=
  ⟨⟨by decide, by decide, by decide, by decide, by decide, by decide, by decide, by decide,
      by decide⟩,
    claim_C2 "2024-01-01T00:00:00" "CREATE" "a.txt" "b.txt" "c.txt" "listman.log" 3
      (by decide) (by decide) (by decide) (by decide) (by decide) (by decide) (by decide)
      (by decide) (by decide)⟩

/-- C10: with no log path configured, an interruption checkpoints the entire
processing sequence — `load_logged_files(None)` is the empty set, so the
pending filter at listman.py:194 keeps every path, fully ingested sources
included. -/
theorem claim_C10 (remaining : List String) (logFile : Option (List String)) :
    checkpoint_after_interrupt remaining none logFile = some remaining := by
  simp [checkpoint_after_interrupt, save_resume_state, interrupt_pending,
    load_logged_files, truthy, List.filter_eq_self]

/-- C4 is false as stated: with resume requested and a checkpoint holding the
non-empty pending list `["b.txt","c.txt"]`, but an empty fresh enumeration,
`collect_words_from_inputs` returns at line 165 before ever consulting the
checkpoint, so nothing (not the checkpoint's sequence) is dispatched. -/
theorem claim_C4_counterexample :
    envC4.resumeState = some ["b.txt", "c.txt"] ∧
    (["b.txt", "c.txt"] : List String) ≠ [] ∧
    dispatched_files envC4 [] [] none false true = none := by
  exact ⟨rfl, by decide, by decide⟩

/-- C4 (amended): if resume is requested, the fresh enumeration is non-empty,
and the checkpoint exists with a non-empty pending list, then the dispatched
sequence is exactly the checkpoint's pending sequence.  (When the fresh
enumeration is empty the run returns before consulting the checkpoint, and
when the pending list is empty the fresh enumeration is kept.) -/
theorem claim_C4 (env : Env) (files folders : List String) (logPath : Option String)
    (skipLogged : Bool) (pending : List String)
    (h1 : enumerate_files env files folders ≠ [])
    (h2 : env.resumeState = some pending) (h3 : pending ≠ []) :
    dispatched_files env files folders logPath skipLogged true = some pending := by
  unfold dispatched_files
  rw [if_neg h1, h2]
  simp [h3]

/-- Witness for the amended C4 at a concrete environment. -/
theorem claim_C4_witness :
    enumerate_files envC4W ["x.txt"] [] ≠ [] ∧
    envC4W.resumeState = some ["b.txt"] ∧ (["b.txt"] : List String) ≠ [] ∧
    dispatched_files envC4W ["x.txt"] [] none false true = some ["b.txt"] :=
  ⟨by decide, rfl, by decide,
    claim_C4 envC4W ["x.txt"] [] none false ["b.txt"] (by decide) rfl (by decide)⟩

/-- C5 is false as stated: a source yielding zero words (here an empty file)
still gets a ledger entry — the guard at listman.py:142 checks only
`log_path and action and not should_exit`, never the word count. -/
theorem claim_C5_counterexample :
    (collect_words_from_file (.readable [] .none) true .none).logged = true ∧
    (collect_words_from_file (.readable [] .none) true .none).words = ∅ ∧
    (collect_words_from_file (.readable [] .none) true .none).loggedCount = 0 := by
  exact ⟨rfl, rfl, rfl⟩

/-- C5 (amended): with logging options truthy, the worker writes a ledger
entry iff the read raised no exception and no cancellation was observed at
any of this call's flag checks — regardless of the word count, which may be
zero; the recorded count is the number of distinct words seen. -/
theorem claim_C5 (lines : List String) (failAfter cancelAt : Option Nat) (logOpts : Bool) :
    ((collect_words_from_file (.readable lines failAfter) logOpts cancelAt).logged = true ↔
      (logOpts = true ∧ (∀ k ∈ failAfter, lines.length < k) ∧
        (∀ c ∈ cancelAt, lines.length < c))) ∧
    (collect_words_from_file (.readable lines failAfter) logOpts cancelAt).loggedCount =
      (if (collect_words_from_file (.readable lines failAfter) logOpts cancelAt).logged
        then (collect_words_from_file (.readable lines failAfter) logOpts cancelAt).words.card
        else 0) := by
  cases cancelAt with
  | none =>
    cases failAfter with
    | none =>
      simp only [collect_words_from_file, Option.getD_none]
      split_ifs with h1 h2 h3 <;> simp_all
    | some k =>
      simp only [collect_words_from_file, Option.getD_none, Option.mem_def]
      split_ifs with hk h1 h2 h3 <;> simp_all
  | some c =>
    cases failAfter with
    | none =>
      simp only [collect_words_from_file, Option.getD_some, Option.mem_def]
      split_ifs with h1 h2 h3 <;> simp_all
      omega
    | some k =>
      simp only [collect_words_from_file, Option.getD_some, Option.mem_def]
      split_ifs with hk h1 h2 h3 <;> simp_all
      omega

/-- C8 is false as stated: a read failure after the first line of a source
(here `["foo"]` with the failure at read index 1) reports the error and does
not abort, but the partially read word `"foo"` is returned and enters the
union — the contribution is not the empty set. -/
theorem claim_C8_counterexample :
    (collect_words_from_file (.readable ["foo"] (some 1)) true .none).words = {"foo"} ∧
    (collect_words_from_file (.readable ["foo"] (some 1)) true .none).words ≠ ∅ ∧
    (collect_words_from_file (.readable ["foo"] (some 1)) true .none).errorReported = true := by
  exact ⟨by decide, by decide, by decide⟩

/-- C8 (amended): an unopenable source contributes the empty set; a source
whose read fails after `k` lines contributes the distinct trimmed non-empty
words of those `k` lines (a partial, not necessarily empty, contribution).
In both cases the error is reported, no ledger entry is written, and the run
does not abort: the returned union is still the union of the per-source
results over the whole dispatched sequence. -/
theorem claim_C8 :
    (∀ (logOpts : Bool) (cancelAt : Option Nat),
      collect_words_from_file .unopenable logOpts cancelAt = ⟨∅, false, 0, true⟩) ∧
    (∀ (lines : List String) (k : Nat) (logOpts : Bool) (cancelAt : Option Nat),
      k ≤ lines.length → (∀ c ∈ cancelAt, k ≤ c) →
      collect_words_from_file (.readable lines (some k)) logOpts cancelAt =
        ⟨wordsOfLines (lines.take k), false, 0, true⟩) ∧
    (∀ (env : Env) (files folders : List String) (logPath : Option String)
        (logOpts skipLogged resume : Bool) (l : List String),
      dispatched_files env files folders logPath skipLogged resume = some l →
      ∀ w, w ∈ collect_words_from_inputs env files folders logPath logOpts skipLogged resume ↔
        ∃ f ∈ l, w ∈ (collect_words_from_file (env.content f) logOpts .none).words) := by
  refine ⟨fun _ _ => rfl, ?_, ?_⟩
  · intro lines k logOpts cancelAt hk hc
    cases cancelAt with
    | none =>
      simp only [collect_words_from_file, Option.getD_none]
      rw [if_pos hk, if_neg (by omega), if_pos hk]
    | some c =>
      have hkc : k ≤ c := hc c rfl
      simp only [collect_words_from_file, Option.getD_some]
      rw [if_pos hk, if_neg (by omega), if_pos hk]
  · intro env files folders logPath logOpts skipLogged resume l hd w
    unfold collect_words_from_inputs
    rw [hd, mem_foldl_union]
    simp

/-- Witness for the amended C8 at a concrete input: a two-line source whose
read fails after the first line contributes exactly that line's word. -/
theorem claim_C8_witness :
    (1 ≤ (["foo", "bar"] : List String).length) ∧
    collect_words_from_file (.readable ["foo", "bar"] (some 1)) true .none =
      ⟨wordsOfLines (["foo", "bar"].take 1), false, 0, true⟩ :=
  ⟨by decide, claim_C8.2.1 ["foo", "bar"] 1 true .none (by decide) (by simp)⟩

/-- C9 is false as stated: `collect_words_from_inputs` performs no
deduplication when enumerating (listman.py:148-163) — a path given twice
among the explicit files occurs twice in the sequence handed to ingestion. -/
theorem claim_C9_counterexample :
    enumerate_files envC9 ["a.txt", "a.txt"] [] = ["a.txt", "a.txt"] ∧
    (enumerate_files envC9 ["a.txt", "a.txt"] []).count "a.txt" = 2 ∧
    ¬ (enumerate_files envC9 ["a.txt", "a.txt"] []).Nodup := by
  exact ⟨by decide, by decide, by decide⟩

/-- C9 (amended): the enumerated sequence is the existing explicit files in
order followed by the folder expansions, with multiplicities preserved: a
path occurs as many times as it occurs among the existing explicit files
plus its occurrences in the directory `*.txt` expansions. -/
theorem claim_C9 (env : Env) (files folders : List String) (p : String) :
    (enumerate_files env files folders).count p =
      ((files.filter fun f => env.isFile f).count p) +
        (((folders.filter fun d => env.isDir d).flatMap env.globTxt).count p) := by
  simp [enumerate_files, List.count_append]

/-- C6 is false as stated: `a.txt` is in the log store and still on disk and
skip-already-logged is requested, yet in a resume run whose checkpoint
pending list contains `a.txt` the resume replacement (listman.py:177)
re-introduces it, so `a.txt` is in the sequence handed to ingestion. -/
theorem claim_C6_counterexample :
    "a.txt" ∈ load_logged_files (some "listman.log") envC6.logFile ∧
    envC6.isFile "a.txt" = true ∧
    dispatched_files envC6 ["a.txt"] [] (some "listman.log") true true =
      some ["a.txt"] := by
  exact ⟨by decide, rfl, by decide⟩

/-- C6 (amended): with skip-already-logged requested, every path recorded in
the log store is excluded from the dispatched sequence provided resume
replacement does not occur — resume off, or no checkpoint file, or a
checkpoint whose pending list is empty (falsy at listman.py:175).  When no
log path is configured the log store is empty and the filter is skipped. -/
theorem claim_C6 (env : Env) (files folders : List String) (logPath : Option String)
    (A : String) (l : List String) (resume : Bool)
    (hA : A ∈ load_logged_files logPath env.logFile)
    (hres : resume = false ∨ env.resumeState = none ∨ env.resumeState = some [])
    (hd : dispatched_files env files folders logPath true resume = some l) :
    A ∉ l := by
  have ht : truthy logPath = true := by
    by_contra htn
    rw [load_logged_files.eq_def, if_neg htn] at hA
    exact absurd hA (Finset.not_mem_empty A)
  by_cases henum : enumerate_files env files folders = []
  · simp [dispatched_files, henum] at hd
  · have hd' : l = (enumerate_files env files folders).filter
        (fun f => decide (f ∉ load_logged_files logPath env.logFile)) := by
      cases resume with
      | false =>
        simp only [dispatched_files, ht, Bool.true_and, if_true, if_neg henum,
          Option.some_inj] at hd
        exact hd.symm
      | true =>
        rcases hres with hres | hres | hres
        · cases hres
        · simp only [dispatched_files, ht, Bool.true_and, if_true, if_neg henum, hres,
            Option.some_inj] at hd
          exact hd.symm
        · simp only [dispatched_files, ht, Bool.true_and, if_true, if_neg henum, hres,
            if_pos rfl, Option.some_inj] at hd
          exact hd.symm
    rw [hd']
    intro hAl
    rw [List.mem_filter] at hAl
    have h2 := hAl.2
    simp only [decide_eq_true_eq] at h2
    exact h2 hA

/-- Witness for the amended C6: with `a.txt` logged and resume off, the
dispatched sequence is empty and in particular excludes `a.txt`. -/
theorem claim_C6_witness :
    "a.txt" ∈ load_logged_files (some "listman.log") envC6.logFile ∧
    ((false : Bool) = false ∨ envC6.resumeState = none ∨ envC6.resumeState = some []) ∧
    dispatched_files envC6 ["a.txt"] [] (some "listman.log") true false = some [] ∧
    "a.txt" ∉ ([] : List String) :=
  ⟨by decide, Or.inl rfl, by decide,
    claim_C6 envC6 ["a.txt"] [] (some "listman.log") "a.txt" [] false (by decide)
      (Or.inl rfl) (by decide)⟩

/-- C7: for every word set (newline-free, per the WordSet data-model
invariant) and every compression mode, the lines of the saved master file
are the sorted words each followed by its newline, and these words are in
strictly ascending lexicographic (code-point) order with no duplicates. -/
theorem claim_C7 (words : Finset String) (mode : CompressMode)
    (h : ∀ w ∈ words, '\n' ∉ w.data) :
    pyLines (save_master words mode).2 = ((sortedWords words).map fun w => w ++ "\n") ∧
    List.Sorted (· < ·) (sortedWords words) ∧ (sortedWords words).Nodup := by
  exact ⟨pyLines_masterContent words h, Finset.sort_sorted_lt words, Finset.sort_nodup _ _⟩

/-- Witness for C7 at a concrete word set and mode. -/
theorem claim_C7_witness :
    (∀ w ∈ ({"foo", "bar"} : Finset String), '\n' ∉ w.data) ∧
    (pyLines (save_master {"foo", "bar"} CompressMode.plain).2 =
      ((sortedWords {"foo", "bar"}).map fun w => w ++ "\n") ∧
    List.Sorted (· < ·) (sortedWords ({"foo", "bar"} : Finset String)) ∧
    (sortedWords ({"foo", "bar"} : Finset String)).Nodup) :=
  ⟨by decide, claim_C7 {"foo", "bar"} CompressMode.plain (by decide)⟩

/-- C3: starting from a store with no master present, saving a word set in
any of the three modes and then loading the master collection (the load
performed by `add_to_master`) returns exactly the original set, provided
every word is non-empty, contains no newline, and carries no surrounding
whitespace. -/
theorem claim_C3 (words : Finset String) (mode : CompressMode)
    (h : ∀ w ∈ words, w ≠ "" ∧ '\n' ∉ w.data ∧ pystrip w = w) :
    load_master (saveToFS MasterFS.empty words mode) = some words := by
  have hl : pyLines (masterContent words) = (sortedWords words).map fun w => w ++ "\n" :=
    pyLines_masterContent words fun w hw => (h w hw).2.1
  have hs : ∀ w ∈ sortedWords words, w ≠ "" ∧ stripChars w.data = w.data := by
    intro w hw
    rw [sortedWords, Finset.mem_sort] at hw
    refine ⟨(h w hw).1, ?_⟩
    have := (h w hw).2.2
    exact congrArg String.data this
  have hwords : wordsOfLines (pyLines (masterContent words)) = words := by
    rw [hl, wordsOfLines_map_newline (sortedWords words) hs, sortedWords,
      Finset.sort_toFinset]
  cases mode <;> simp [saveToFS, load_master, MasterFS.empty, hwords]

/-- Witness for C3 at a concrete word set and the gzip mode. -/
theorem claim_C3_witness :
    (∀ w ∈ ({"bar", "foo"} : Finset String), w ≠ "" ∧ '\n' ∉ w.data ∧ pystrip w = w) ∧
    load_master (saveToFS MasterFS.empty {"bar", "foo"} CompressMode.gzip) =
      some {"bar", "foo"} :=
  ⟨by decide, claim_C3 {"bar", "foo"} CompressMode.gzip (by decide)⟩

/-- An error-free, cancellation-free worker call returns exactly the distinct
trimmed non-empty lines of its source. -/
theorem collect_clean (lines : List String) (logOpts : Bool) :
    (collect_words_from_file (.readable lines .none) logOpts .none).words =
      wordsOfLines lines := by
  simp only [collect_words_from_file, Option.getD_none]
  rw [if_neg (by omega), if_neg (by omega)]
  split_ifs <;> rfl

/-- C1: in an uninterrupted, error-free create run, the collected word set is
exactly the union over the dispatched sources of each source's trimmed
non-empty lines, and the master list written from it has no duplicates and
denotes exactly that union. -/
theorem claim_C1 (env : Env) (files folders : List String) (logPath : Option String)
    (logOpts skipLogged resume : Bool) (l : List String) (srcLines : String → List String)
    (hd : dispatched_files env files folders logPath skipLogged resume = some l)
    (hsrc : ∀ f ∈ l, env.content f = .readable (srcLines f) .none) :
    (∀ w, w ∈ collect_words_from_inputs env files folders logPath logOpts skipLogged resume ↔
      ∃ f ∈ l, w ∈ wordsOfLines (srcLines f)) ∧
    (sortedWords
      (collect_words_from_inputs env files folders logPath logOpts skipLogged resume)).Nodup ∧
    (sortedWords
        (collect_words_from_inputs env files folders logPath logOpts skipLogged resume)).toFinset =
      collect_words_from_inputs env files folders logPath logOpts skipLogged resume := by
  refine ⟨?_, Finset.sort_nodup _ _, Finset.sort_toFinset _ _⟩
  intro w
  unfold collect_words_from_inputs
  rw [hd, mem_foldl_union]
  simp only [Finset.not_mem_empty, false_or]
  constructor
  · rintro ⟨f, hf, hw⟩
    exact ⟨f, hf, by rwa [hsrc f hf, collect_clean] at hw⟩
  · rintro ⟨f, hf, hw⟩
    exact ⟨f, hf, by rw [hsrc f hf, collect_clean]; exact hw⟩

/-- Witness for C1 on the spec's concrete scenario (`a.txt` with lines `foo`,
` bar `, ``, `foo`; `b.txt` with `baz`, `foo`). -/
theorem claim_C1_witness :
    dispatched_files envC1 ["a.txt", "b.txt"] [] none false false =
      some ["a.txt", "b.txt"] ∧
    (∀ f ∈ ["a.txt", "b.txt"], envC1.content f = .readable (srcLinesC1 f) .none) ∧
    (∀ w, w ∈ collect_words_from_inputs envC1 ["a.txt", "b.txt"] [] none true false false ↔
      ∃ f ∈ ["a.txt", "b.txt"], w ∈ wordsOfLines (srcLinesC1 f)) :=
  ⟨by decide, by decide,
    (claim_C1 envC1 ["a.txt", "b.txt"] [] none true false false ["a.txt", "b.txt"]
      srcLinesC1 (by decide) (by decide)).1⟩

end ListMan
